import Mathlib

/-!
# Verification development for the `mandelbrot` repository

Shallow embedding of the core of the `mandelbrot` renderer
(`src/fractal.rs`, `src/monocub.rs`, `src/args.rs`, `src/main.rs`,
`src/render.rs`) and proofs about it.

Embedding conventions:

* `f64` values are idealized as real numbers (`ℝ`); every `f64`
  operation appearing in the sources (`+`, `-`, `*`, `/`, `powi`,
  `sqrt`, `abs`, comparisons) is mapped to the exact operation on `ℝ`.
  All concrete inputs used in the evaluation theorems below are small
  dyadic rationals on which the actual `f64` computation is exact, so
  the evaluations agree with what the compiled program computes.
* `u8` values are modelled as `ℕ`; the Rust saturating-truncating cast
  `as u8` from `f64` is modelled by `f64_as_u8` below.
* `num::Complex<f64>` is modelled by the structure `Cx` with explicit
  real/imaginary parts; `z * z + c` is expanded with the usual complex
  product.
* Rust `for` loops that iterate an index are modelled either as folds
  over `List.range` or as structural recursion on the number of
  remaining iterations; early `return` inside a loop becomes an
  `Option`-valued recursion.
* In-place index assignments (`m[k] = …`) become `List.set`; `Vec`
  indexing becomes `List.getD` with default `0` (all claims supply
  bounds hypotheses under which every index used by the code is in
  range, matching the situations where the Rust code does not panic).
* A reachable `panic!`/`unimplemented!` is modelled as `Option.none`.
* `src/color.rs` is not part of the sources; the palette-lookup
  function `color(colors, count)` used by the renderers is therefore
  kept abstract as a parameter `colorFn : ℕ → Color`.  It is applied
  identically on both sides of the band-decomposition equivalence, so
  nothing about it is assumed.
-/

namespace Mandelbrot

/-- `num::Complex<f64>`, idealized over `ℝ`. -/
@[ext]
structure Cx where
  re : ℝ
  im : ℝ

/-- Complex product `z * w` of `num::Complex<f64>`. -/
def Cx.mul (z w : Cx) : Cx :=
  ⟨z.re * w.re - z.im * w.im, z.re * w.im + z.im * w.re⟩

/-- Complex sum `z + w`. -/
def Cx.add (z w : Cx) : Cx :=
  ⟨z.re + w.re, z.im + w.im⟩

/-- `Complex::norm_sqr`, the squared magnitude. -/
def Cx.norm_sqr (z : Cx) : ℝ :=
  z.re * z.re + z.im * z.im

/-- The escape loop shared (textually duplicated) by the three kernels in
`src/fractal.rs`: `for i in 0..limit { if z.norm_sqr() >= 4. { return Some(i) }
z = step z }` with `i` the current index and the second `ℕ` argument the
number of remaining iterations (`limit - i`). -/
noncomputable def escape_go (step : Cx → Cx) (z : Cx) (i : ℕ) : ℕ → Option ℕ
  | 0 => none
  | rem + 1 =>
    if 4 ≤ z.norm_sqr then some i
    else escape_go step (step z) (i + 1) rem

/-- `escape_time_mandel` from `src/fractal.rs`: `z₀ = 0`, step `z*z + c`. -/
noncomputable def escape_time_mandel (c : Cx) (limit : ℕ) : Option ℕ :=
  escape_go (fun z => Cx.add (Cx.mul z z) c) ⟨0, 0⟩ 0 limit

/-- `escape_time_julia` from `src/fractal.rs`: `z₀` is the point under test,
`c` the seed, step `z*z + c`. -/
noncomputable def escape_time_julia (z c : Cx) (limit : ℕ) : Option ℕ :=
  escape_go (fun w => Cx.add (Cx.mul w w) c) z 0 limit

/-- One step of `escape_time_burningship`:
`Complex { re: z.re.abs(), im: -z.im.abs() }.powi(2) + c`. -/
def bs_step (c z : Cx) : Cx :=
  Cx.add (Cx.mul ⟨|z.re|, -|z.im|⟩ ⟨|z.re|, -|z.im|⟩) c

/-- `escape_time_burningship` from `src/fractal.rs`. -/
noncomputable def escape_time_burningship (c : Cx) (limit : ℕ) : Option ℕ :=
  escape_go (bs_step c) ⟨0, 0⟩ 0 limit

/-- `pixel_to_point`, appearing identically in `src/fractal.rs` and
`src/render.rs` (the latter with a `Bounds` wrapper around the pair). -/
noncomputable def pixel_to_point (bounds : ℕ × ℕ) (pixel : ℕ × ℕ)
    (upper_left lower_right : Cx) : Cx :=
  let width := lower_right.re - upper_left.re
  let height := upper_left.im - lower_right.im
  ⟨upper_left.re + (pixel.1 : ℝ) * width / (bounds.1 : ℝ),
   upper_left.im - (pixel.2 : ℝ) * height / (bounds.2 : ℝ)⟩

/-- An RGB color, `Color(u8, u8, u8)` from the (absent) `src/color.rs`. -/
def Color := ℕ × ℕ × ℕ

/-- The pixel buffer produced by `render_mandel` in `src/fractal.rs`:
row-major, three bytes per pixel; a pixel is black when the kernel reports
no divergence and otherwise `color(colors, count)`, kept abstract as
`colorFn`. -/
noncomputable def render_mandel (colorFn : ℕ → Color) (bounds : ℕ × ℕ)
    (upper_left lower_right : Cx) : List ℕ :=
  (List.range bounds.2).flatMap fun row =>
    (List.range bounds.1).flatMap fun col =>
      match escape_time_mandel
          (pixel_to_point bounds (col, row) upper_left lower_right) 255 with
      | none => [0, 0, 0]
      | some count => [(colorFn count).1, (colorFn count).2.1, (colorFn count).2.2]

/-- The pixel buffer assembled by `create_mandel` in `src/main.rs`
(`altfn = false` path): the buffer is split into `height` one-row bands
(`chunks_mut(bounds.0 * 3)`), band `i` is rendered by `render_mandel` over
the sub-rectangle with corners `pixel_to_point bounds (0, i)` and
`pixel_to_point bounds (bounds.0, i + 1)`, and the bands are reassembled
in row order. -/
noncomputable def create_mandel (colorFn : ℕ → Color) (bounds : ℕ × ℕ)
    (upper_left lower_right : Cx) : List ℕ :=
  (List.range bounds.2).flatMap fun i =>
    render_mandel colorFn (bounds.1, 1)
      (pixel_to_point bounds (0, i) upper_left lower_right)
      (pixel_to_point bounds (bounds.1, i + 1) upper_left lower_right)

/-- The aspect-correction step of `common_args` in `src/args.rs`
(lines 22–34), as a pure function of the parsed bounds and corner points. -/
noncomputable def common_args_aspect (bounds : ℕ × ℕ)
    (upper_left lower_right : Cx) : Cx × Cx :=
  let ratio : ℝ := (bounds.1 : ℝ) / (bounds.2 : ℝ)
  let plane_ratio : ℝ :=
    (lower_right.re - upper_left.re) / (upper_left.im - lower_right.im)
  if ratio = plane_ratio then (upper_left, lower_right)
  else if ratio > 1 then
    let r := 1 / ratio
    (⟨upper_left.re, upper_left.im - r / 2⟩,
     ⟨lower_right.re, lower_right.im + r / 2⟩)
  else
    (⟨upper_left.re + ratio / 2, upper_left.im⟩,
     ⟨lower_right.re - ratio / 2, lower_right.im⟩)

/-- The aspect check of `common_args` in `src/main.rs` (lines 108–111):
on any ratio mismatch the program hits `unimplemented!()`, modelled as
`none`; otherwise the corners pass through unchanged. -/
noncomputable def common_args_main_aspect (bounds : ℕ × ℕ)
    (upper_left lower_right : Cx) : Option (Cx × Cx) :=
  let ratio : ℝ := (bounds.1 : ℝ) / (bounds.2 : ℝ)
  let plane_ratio : ℝ :=
    (lower_right.re - upper_left.re) / (upper_left.im - lower_right.im)
  if ratio ≠ plane_ratio then none else some (upper_left, lower_right)

/-! ## `src/monocub.rs` -/

/-- The Hermite basis function `h00(t) = 2t³ - 3t² + 1`. -/
def h00 (t : ℝ) : ℝ := 2 * t ^ 3 - 3 * t ^ 2 + 1

/-- The Hermite basis function `h10(t) = t³ - 2t² + t`. -/
def h10 (t : ℝ) : ℝ := t ^ 3 - 2 * t ^ 2 + t

/-- The Hermite basis function `h01(t) = -2t³ + 3t²`. -/
def h01 (t : ℝ) : ℝ := -2 * t ^ 3 + 3 * t ^ 2

/-- The Hermite basis function `h11(t) = t³ - t²`. -/
def h11 (t : ℝ) : ℝ := t ^ 3 - t ^ 2

/-- The per-interval slopes computed at the top of
`monotonic_cubic_preprocess`:
`slopes[i] = (y[i+1] - y[i]) / (knots[i+1] - knots[i])` for `i in 0..n-1`. -/
noncomputable def slopes (y : List ℕ) (knots : List ℝ) : List ℝ :=
  (List.range (y.length - 1)).map fun i =>
    ((y.getD (i + 1) 0 : ℝ) - (y.getD i 0 : ℝ)) /
      (knots.getD (i + 1) 0 - knots.getD i 0)

/-- The interior tangents: `for k in 1..slopes.len()`, tangent `0` at a local
extremum (`slopes[k-1] * slopes[k] < 0`), otherwise the average of the two
adjacent slopes.  The list below is indexed by `j = k - 1`. -/
noncomputable def interior_tangents (s : List ℝ) : List ℝ :=
  (List.range (s.length - 1)).map fun j =>
    if s.getD j 0 * s.getD (j + 1) 0 < 0 then 0
    else (s.getD j 0 + s.getD (j + 1) 0) / 2

/-- The tangent vector `m` after `m.insert(0, slopes[0])` and
`m.push(slopes[n-2])` (note `slopes.len() = n - 1`, so `slopes[n-2]` is the
last slope). -/
noncomputable def tangents_raw (s : List ℝ) : List ℝ :=
  s.getD 0 0 :: interior_tangents s ++ [s.getD (s.length - 1) 0]

/-- The flat-interval pass: `for k in 0..n-1`, whenever `slopes[k] == 0.0`
set `m[k] = 0`, `m[k+1] = 0` and record `k` in `ignores`.  Returns the
updated tangents together with `ignores`. -/
noncomputable def flat_pass (s : List ℝ) (m : List ℝ) : List ℝ × List ℕ :=
  (List.range s.length).foldl
    (fun st k =>
      if s.getD k 0 = 0 then ((st.1.set k 0).set (k + 1) 0, st.2 ++ [k])
      else st)
    (m, [])

/-- The `while cur < ignores.len()` loop building `to_do` in
`monotonic_cubic_preprocess`: the cursor `cur` into `ignores` is modelled by
the not-yet-consumed suffix of `ignores`.  `i < ignores[cur]` pushes `i` and
increments it; otherwise `i` jumps to `ignores[cur] + 1` and the cursor
advances.  The loop stops as soon as the cursor passes the end of
`ignores` — in particular `to_do` is empty whenever `ignores` is. -/
def to_do_loop (i : ℕ) : List ℕ → List ℕ
  | [] => []
  | g :: rest =>
    if i < g then i :: to_do_loop (i + 1) (g :: rest)
    else to_do_loop (g + 1) rest
termination_by l => (l.length, l.headD 0 - i)
decreasing_by
  · apply Prod.Lex.right
    simpa using Nat.sub_lt_sub_left (by omega) (by omega)
  · apply Prod.Lex.left
    simp

/-- The body of the Fritsch–Carlson guard loop (`for k in to_do`):
`a = m[k]/slopes[k]`, `b = m[k+1]/slopes[k]`; clamp `m[k]` to `0` if
`a < 0`, else clamp `m[k+1]` to `0` if `b < 0`, else rescale both tangents
by `t = 3/√(a² + b²)` when `a² + b² > 9`. -/
noncomputable def fc_guard (s : List ℝ) (m : List ℝ) (k : ℕ) : List ℝ :=
  let a := m.getD k 0 / s.getD k 0
  let b := m.getD (k + 1) 0 / s.getD k 0
  if a < 0 then m.set k 0
  else if b < 0 then m.set (k + 1) 0
  else if a ^ 2 + b ^ 2 > 9 then
    let t := 3 / Real.sqrt (a ^ 2 + b ^ 2)
    (m.set k (t * a * s.getD k 0)).set (k + 1) (t * b * s.getD k 0)
  else m

/-- `monotonic_cubic_preprocess` from `src/monocub.rs`, assembled from the
stages above in the order of the source (the slope vector is computed once
in the source and is pure, so repeating the subterm is harmless). -/
noncomputable def monotonic_cubic_preprocess (y : List ℕ) (knots : List ℝ) :
    List ℝ :=
  (to_do_loop 0 (flat_pass (slopes y knots) (tangents_raw (slopes y knots))).2).foldl
    (fc_guard (slopes y knots))
    (flat_pass (slopes y knots) (tangents_raw (slopes y knots))).1

/-- The Rust saturating-truncating cast `as u8` from `f64`
(truncate toward zero, clamp to `0..=255`; `NaN` does not arise over `ℝ`). -/
noncomputable def f64_as_u8 (r : ℝ) : ℕ := min (Int.toNat ⌊r⌋) 255

/-- The cubic Hermite expression returned by `interpolate`:
`y[k]·h00(t) + Δ·m[k]·h10(t) + y[k+1]·h01(t) + Δ·m[k+1]·h11(t)`. -/
noncomputable def hermite (yk yk1 mk mk1 delta t : ℝ) : ℝ :=
  yk * h00 t + delta * mk * h10 t + yk1 * h01 t + delta * mk1 * h11 t

/-- The search loop `for k in 0..n-1` of `interpolate`: return the Hermite
value on the first interval with `knots[k] <= x && x <= knots[k+1]`; falling
off the end of the loop reaches `panic!("should be logically impossible")`,
modelled as `none`.  The second `ℕ` argument is the number of remaining
iterations (`(n-1) - k`). -/
noncomputable def interp_loop (x : ℝ) (knots : List ℝ) (y : List ℕ)
    (m : List ℝ) : ℕ → ℕ → Option ℕ
  | _, 0 => none
  | k, rem + 1 =>
    if knots.getD k 0 ≤ x ∧ x ≤ knots.getD (k + 1) 0 then
      some (f64_as_u8 (hermite (y.getD k 0) (y.getD (k + 1) 0)
        (m.getD k 0) (m.getD (k + 1) 0)
        (knots.getD (k + 1) 0 - knots.getD k 0)
        ((x - knots.getD k 0) / (knots.getD (k + 1) 0 - knots.getD k 0))))
    else interp_loop x knots y m (k + 1) rem

/-- `interpolate` from `src/monocub.rs`.  The early branch for
`x >= knots[n-1]` uses `k = n - 2`, `delta = knots[k+1] - knots[k]` and —
exactly as in the source — `t = (x - knots[k+1]) / delta`.  The final
`panic!` is modelled as `none`. -/
noncomputable def interpolate (x : ℝ) (knots : List ℝ) (y : List ℕ)
    (m : List ℝ) : Option ℕ :=
  let n := knots.length
  if x ≥ knots.getD (n - 1) 0 then
    let k := n - 2
    let delta := knots.getD (k + 1) 0 - knots.getD k 0
    let t := (x - knots.getD (k + 1) 0) / delta
    some (f64_as_u8 (hermite (y.getD k 0) (y.getD (k + 1) 0)
      (m.getD k 0) (m.getD (k + 1) 0) delta t))
  else
    interp_loop x knots y m 0 (n - 1)

/-! ## Helper lemmas -/

theorem escape_go_zero (step : Cx → Cx) (z : Cx) (i : ℕ) :
    escape_go step z i 0 = none := rfl

theorem escape_go_succ (step : Cx → Cx) (z : Cx) (i rem : ℕ) :
    escape_go step z i (rem + 1) =
      if 4 ≤ z.norm_sqr then some i
      else escape_go step (step z) (i + 1) rem := rfl

/-- Any index returned by the escape loop is below the starting index plus
the number of remaining iterations. -/
theorem escape_go_lt (step : Cx → Cx) :
    ∀ (rem : ℕ) (z : Cx) (i j : ℕ),
      escape_go step z i rem = some j → j < i + rem := by
  intro rem
  induction rem with
  | zero => intro z i j h; simp [escape_go_zero] at h
  | succ n ih =>
    intro z i j h
    rw [escape_go_succ] at h
    split_ifs at h with hz
    · cases h; omega
    · have := ih (step z) (i + 1) j h
      omega

theorem sorted_getD_lt {knots : List ℝ} (h : List.Sorted (· < ·) knots)
    {i j : ℕ} (hij : i < j) (hj : j < knots.length) :
    knots.getD i 0 < knots.getD j 0 := by
  rw [List.getD_eq_get _ _ (lt_trans hij hj), List.getD_eq_get _ _ hj]
  exact List.Sorted.rel_get_of_lt h (Fin.mk_lt_mk.mpr hij)

/-- When every knot lies strictly above the query, the search loop of
`interpolate` falls through to the panic. -/
theorem interp_loop_none (x : ℝ) (knots : List ℝ) (y : List ℕ) (m : List ℝ)
    (hx : ∀ j, j < knots.length → x < knots.getD j 0) :
    ∀ (rem k : ℕ), k + rem ≤ knots.length - 1 →
      interp_loop x knots y m k rem = none := by
  intro rem
  induction rem with
  | zero => intro k _; rfl
  | succ n ih =>
    intro k hk
    have hklt : k < knots.length := by omega
    rw [interp_loop]
    rw [if_neg (by intro hcon; exact absurd hcon.1 (not_le.mpr (hx k hklt)))]
    exact ih (k + 1) (by omega)

/-- When the query sits above the current knot and strictly below the last
knot, the search loop of `interpolate` finds a containing interval. -/
theorem interp_loop_some (x : ℝ) (knots : List ℝ) (y : List ℕ) (m : List ℝ) :
    ∀ (rem k : ℕ), k + rem = knots.length - 1 → knots.getD k 0 ≤ x →
      x < knots.getD (knots.length - 1) 0 →
      interp_loop x knots y m k rem ≠ none := by
  intro rem
  induction rem with
  | zero =>
    intro k hk hle hlt
    have hk' : k = knots.length - 1 := by omega
    rw [hk'] at hle
    exact absurd (lt_of_le_of_lt hle hlt) (lt_irrefl _)
  | succ n ih =>
    intro k hk hle hlt
    rw [interp_loop]
    by_cases hup : x ≤ knots.getD (k + 1) 0
    · rw [if_pos ⟨hle, hup⟩]
      exact Option.some_ne_none _
    · rw [if_neg (by intro hcon; exact hup hcon.2)]
      exact ih (k + 1) (by omega) (le_of_lt (not_le.mp hup)) hlt

/-- A one-pixel-high band with corners taken from `pixel_to_point` samples
the same plane points as the corresponding row of the full image. -/
theorem band_point_eq (bounds : ℕ × ℕ) (ul lr : Cx) (i col : ℕ)
    (hw : 1 ≤ bounds.1) :
    pixel_to_point (bounds.1, 1) (col, 0)
      (pixel_to_point bounds (0, i) ul lr)
      (pixel_to_point bounds (bounds.1, i + 1) ul lr)
    = pixel_to_point bounds (col, i) ul lr := by
  have hb : (bounds.1 : ℝ) ≠ 0 := Nat.cast_ne_zero.mpr (by omega)
  ext <;> simp only [pixel_to_point] <;> push_cast <;> field_simp

/-! ### Concrete evaluations of the palette-builder stages

Two data sets are used repeatedly below.

Data set A (`y = [0, 200, 210]`, `knots = [0, 1, 2]`): strictly increasing
knot values with a large slope followed by a small one, and no flat
interval.  All intermediate `f64` computations on it are exact (small
dyadic rationals), so the idealized evaluation agrees with the program.

Data set B (`y = [0, 255]`, `knots = [0, 1]`): a single increasing
interval. -/

theorem slopes_A : slopes [0, 200, 210] [(0 : ℝ), 1, 2] = [200, 10] := by
  simp only [slopes]
  rw [show ([0, 200, 210] : List ℕ).length - 1 = 2 from rfl,
    show List.range 2 = [0, 1] from rfl]
  norm_num

theorem interior_tangents_A : interior_tangents [(200 : ℝ), 10] = [105] := by
  simp only [interior_tangents]
  rw [show ([(200 : ℝ), 10] : List ℝ).length - 1 = 1 from rfl,
    show List.range 1 = [0] from rfl]
  norm_num

theorem tangents_raw_A : tangents_raw [(200 : ℝ), 10] = [200, 105, 10] := by
  unfold tangents_raw
  rw [interior_tangents_A]
  rfl

theorem flat_pass_A :
    flat_pass [(200 : ℝ), 10] [(200 : ℝ), 105, 10] = ([200, 105, 10], []) := by
  simp only [flat_pass]
  rw [show ([(200 : ℝ), 10] : List ℝ).length = 2 from rfl,
    show List.range 2 = [0, 1] from rfl]
  norm_num

theorem preprocess_A :
    monotonic_cubic_preprocess [0, 200, 210] [(0 : ℝ), 1, 2] = [200, 105, 10] := by
  unfold monotonic_cubic_preprocess
  rw [slopes_A, tangents_raw_A, flat_pass_A]
  rw [show to_do_loop 0 [] = [] from by rw [to_do_loop]]
  rfl

theorem slopes_B : slopes [0, 255] [(0 : ℝ), 1] = [255] := by
  simp only [slopes]
  rw [show ([0, 255] : List ℕ).length - 1 = 1 from rfl,
    show List.range 1 = [0] from rfl]
  norm_num

theorem tangents_raw_B : tangents_raw [(255 : ℝ)] = [255, 255] := by
  unfold tangents_raw
  rw [show interior_tangents [(255 : ℝ)] = [] from by
    simp only [interior_tangents]
    rw [show ([(255 : ℝ)] : List ℝ).length - 1 = 0 from rfl,
      show List.range 0 = [] from rfl]
    rfl]
  rfl

theorem flat_pass_B :
    flat_pass [(255 : ℝ)] [(255 : ℝ), 255] = ([255, 255], []) := by
  simp only [flat_pass]
  rw [show ([(255 : ℝ)] : List ℝ).length = 1 from rfl,
    show List.range 1 = [0] from rfl]
  norm_num

theorem preprocess_B :
    monotonic_cubic_preprocess [0, 255] [(0 : ℝ), 1] = [255, 255] := by
  unfold monotonic_cubic_preprocess
  rw [slopes_B, tangents_raw_B, flat_pass_B]
  rw [show to_do_loop 0 [] = [] from by rw [to_do_loop]]
  rfl

theorem interpolate_A_1 :
    interpolate (11 / 8) [(0 : ℝ), 1, 2] [0, 200, 210] [200, 105, 10]
      = some 217 := by
  simp only [interpolate]
  rw [show ([(0 : ℝ), 1, 2] : List ℝ).length = 3 from rfl]
  rw [if_neg (by norm_num)]
  rw [show (3 : ℕ) - 1 = 1 + 1 from rfl]
  rw [interp_loop]
  rw [if_neg (by norm_num)]
  rw [interp_loop]
  rw [if_pos (by norm_num)]
  norm_num [hermite, h00, h10, h01, h11, f64_as_u8]
  omega

theorem interpolate_A_2 :
    interpolate (15 / 8) [(0 : ℝ), 1, 2] [0, 200, 210] [200, 105, 10]
      = some 210 := by
  simp only [interpolate]
  rw [show ([(0 : ℝ), 1, 2] : List ℝ).length = 3 from rfl]
  rw [if_neg (by norm_num)]
  rw [show (3 : ℕ) - 1 = 1 + 1 from rfl]
  rw [interp_loop]
  rw [if_neg (by norm_num)]
  rw [interp_loop]
  rw [if_pos (by norm_num)]
  norm_num [hermite, h00, h10, h01, h11, f64_as_u8]
  omega

theorem interpolate_B_last :
    interpolate 1 [(0 : ℝ), 1] [0, 255] [255, 255] = some 0 := by
  simp only [interpolate]
  rw [show ([(0 : ℝ), 1] : List ℝ).length = 2 from rfl]
  norm_num [hermite, h00, h10, h01, h11, f64_as_u8]

/-! ## Claim theorems -/

/-- C1.  Evaluation of the code at a failing input for the monotonicity
guarantee: for the strictly increasing knot values `y = [0, 200, 210]` at
positions `[0, 1, 2]`, the preprocessing leaves the raw tangents
`[200, 105, 10]` untouched (no flat interval exists, so the
Fritsch–Carlson pass runs over an empty `to_do` list), and evaluating
`interpolate` at the increasing queries `11/8 < 15/8` inside the knot
range yields `217` followed by `210`: the adjacent palette entries
decrease although every channel datum increases, i.e. the interpolant
overshoots. -/
theorem c1_monotonicity_violated :
    monotonic_cubic_preprocess [0, 200, 210] [(0 : ℝ), 1, 2] = [200, 105, 10] ∧
    interpolate (11 / 8) [(0 : ℝ), 1, 2] [0, 200, 210]
      (monotonic_cubic_preprocess [0, 200, 210] [(0 : ℝ), 1, 2]) = some 217 ∧
    interpolate (15 / 8) [(0 : ℝ), 1, 2] [0, 200, 210]
      (monotonic_cubic_preprocess [0, 200, 210] [(0 : ℝ), 1, 2]) = some 210 ∧
    ((0 : ℕ) < 200 ∧ (200 : ℕ) < 210) ∧
    ((0 : ℝ) < 1 ∧ (1 : ℝ) < 2) ∧
    ((0 : ℝ) ≤ 11 / 8 ∧ (11 / 8 : ℝ) < 15 / 8 ∧ (15 / 8 : ℝ) ≤ 2) ∧
    ¬(217 ≤ 210) := by
  refine ⟨preprocess_A, ?_, ?_, by norm_num, by norm_num, by norm_num, by norm_num⟩
  · rw [preprocess_A]; exact interpolate_A_1
  · rw [preprocess_A]; exact interpolate_A_2

/-- C2.  Evaluation of the code at a failing input for the claim that only
flat intervals are skipped by the Fritsch–Carlson guard: on data set A both
slopes (`200` and `10`) are nonzero, yet `ignores` is empty, the `while`
loop therefore produces an empty `to_do`, and the returned tangents
`[200, 105, 10]` still violate the circle bound on interval 1
(`a = 105/10`, `b = 10/10`, `a² + b² = 111.25 > 9`), which the claimed
rescaling would have reduced to exactly `9`. -/
theorem c2_guard_never_applied :
    slopes [0, 200, 210] [(0 : ℝ), 1, 2] = [200, 10] ∧
    ((200 : ℝ) ≠ 0 ∧ (10 : ℝ) ≠ 0) ∧
    (flat_pass (slopes [0, 200, 210] [(0 : ℝ), 1, 2])
      (tangents_raw (slopes [0, 200, 210] [(0 : ℝ), 1, 2]))).2 = [] ∧
    to_do_loop 0 [] = [] ∧
    monotonic_cubic_preprocess [0, 200, 210] [(0 : ℝ), 1, 2] = [200, 105, 10] ∧
    (105 / 10 : ℝ) ^ 2 + (10 / 10 : ℝ) ^ 2 > 9 := by
  refine ⟨slopes_A, by norm_num, ?_, by rw [to_do_loop], preprocess_A, by norm_num⟩
  rw [slopes_A, tangents_raw_A, flat_pass_A]

/-- C4.  Evaluation of the code at a failing input for the claim about
queries at or past the last knot: with knots `[0, 1]` and values
`[0, 255]`, the preprocessed tangents are `[255, 255]` and a query exactly
at the last knot returns `some 0` — the truncation of the *second-to-last*
value `y[n-2] = 0` — because the early branch computes
`t = (x - knots[k+1]) / delta` (which is `0` at `x = knots[n-1]`) instead
of the claimed `t = (x - knots[n-2]) / delta` (which would be `1` and give
`y[n-1] = 255`). -/
theorem c4_last_knot_wrong_value :
    monotonic_cubic_preprocess [0, 255] [(0 : ℝ), 1] = [255, 255] ∧
    interpolate 1 [(0 : ℝ), 1] [0, 255]
      (monotonic_cubic_preprocess [0, 255] [(0 : ℝ), 1]) = some 0 ∧
    ([0, 255] : List ℕ).getD 1 0 = 255 ∧ (0 : ℕ) ≠ 255 := by
  refine ⟨preprocess_B, ?_, rfl, by norm_num⟩
  rw [preprocess_B]; exact interpolate_B_last

/-- C10.  For strictly increasing knots of length at least 2, `interpolate`
reaches the final `panic!` (modelled as `none`) exactly on queries strictly
below the first knot: queries at or beyond the last knot take the early
branch, and any other query at or above the first knot falls in some
interval of the search loop. -/
theorem c10_panic_iff_below_first_knot (x : ℝ) (knots : List ℝ)
    (y : List ℕ) (m : List ℝ)
    (hsort : List.Sorted (· < ·) knots) (hn : 2 ≤ knots.length) :
    interpolate x knots y m = none ↔ x < knots.getD 0 0 := by
  unfold interpolate
  by_cases hge : x ≥ knots.getD (knots.length - 1) 0
  · rw [if_pos hge]
    simp only [false_iff, reduceCtorEq]
    intro h0
    have h01 : knots.getD 0 0 < knots.getD (knots.length - 1) 0 :=
      sorted_getD_lt hsort (by omega) (by omega)
    exact absurd (lt_of_lt_of_le h01 hge) (not_lt.mpr (le_of_lt h0))
  · rw [if_neg hge]
    push_neg at hge
    by_cases h0 : x < knots.getD 0 0
    · have hall : ∀ j, j < knots.length → x < knots.getD j 0 := by
        intro j hj
        rcases Nat.eq_zero_or_pos j with rfl | hpos
        · exact h0
        · exact lt_trans h0 (sorted_getD_lt hsort hpos hj)
      rw [interp_loop_none x knots y m hall (knots.length - 1) 0 (by omega)]
      exact iff_of_true rfl h0
    · push_neg at h0
      have hsome := interp_loop_some x knots y m (knots.length - 1) 0
        (by omega) h0 hge
      simp only [iff_false, not_lt.mpr h0, false_iff]
      exact hsome

/-- Witness for C10 at the concrete input `knots = [0, 1]`,
`y = [0, 255]`, `m = [255, 255]`, `x = -1`. -/
theorem c10_witness :
    List.Sorted (· < ·) [(0 : ℝ), 1] ∧ 2 ≤ ([(0 : ℝ), 1]).length ∧
    (interpolate (-1) [(0 : ℝ), 1] [0, 255] [255, 255] = none ↔
      (-1 : ℝ) < ([(0 : ℝ), 1]).getD 0 0) :=
  ⟨by norm_num [List.sorted_cons], by norm_num,
    c10_panic_iff_below_first_knot (-1) [(0 : ℝ), 1] [0, 255] [255, 255]
      (by norm_num [List.sorted_cons]) (by norm_num)⟩

/-- C3, counterexample.  At `c = 2 + 0i` (so `|c|² = 4 ≥ 4`) the claim
predicts `some 0` for every `limit ≥ 1`, but the first escape check looks
at `z₀ = 0`, so the code returns `none` at `limit = 1` and `some 1`
(not `some 0`) at `limit = 2`. -/
theorem c3_counterexample :
    4 ≤ Cx.norm_sqr ⟨2, 0⟩ ∧ (1 : ℕ) ≥ 1 ∧
    escape_time_mandel ⟨2, 0⟩ 1 = none ∧
    escape_time_mandel ⟨2, 0⟩ 2 = some 1 ∧
    (none : Option ℕ) ≠ some 0 ∧ (some 1 : Option ℕ) ≠ some 0 := by
  refine ⟨by norm_num [Cx.norm_sqr], le_refl 1, ?_, ?_, by simp, by simp⟩
  · show escape_go _ ⟨0, 0⟩ 0 1 = none
    rw [show (1 : ℕ) = 0 + 1 from rfl, escape_go_succ,
      if_neg (by norm_num [Cx.norm_sqr])]
    rfl
  · show escape_go _ ⟨0, 0⟩ 0 2 = some 1
    rw [show (2 : ℕ) = 1 + 1 from rfl, escape_go_succ,
      if_neg (by norm_num [Cx.norm_sqr])]
    rw [escape_go_succ, if_pos (by norm_num [Cx.norm_sqr, Cx.add, Cx.mul])]

/-- C3, amended.  For every `c` with `|c|² ≥ 4` (equivalently `|c| ≥ 2`),
`escape_time_mandel c limit` returns `none` when `limit = 1` and
`some 1` — divergence detected at iteration 1, not 0 — for every
`limit ≥ 2`, because the escape test is applied to `z₀ = 0` before the
point under test is ever examined. -/
theorem c3_amended (c : Cx) (h : 4 ≤ c.norm_sqr) :
    escape_time_mandel c 1 = none ∧
    ∀ limit, 2 ≤ limit → escape_time_mandel c limit = some 1 := by
  have hz : Cx.add (Cx.mul ⟨0, 0⟩ ⟨0, 0⟩) c = c := by
    ext <;> simp [Cx.add, Cx.mul]
  have hz0 : ¬(4 : ℝ) ≤ Cx.norm_sqr ⟨0, 0⟩ := by norm_num [Cx.norm_sqr]
  constructor
  · show escape_go _ ⟨0, 0⟩ 0 1 = none
    rw [show (1 : ℕ) = 0 + 1 from rfl, escape_go_succ, if_neg hz0]
    rfl
  · intro limit hlim
    obtain ⟨k, rfl⟩ : ∃ k, limit = k + 2 := ⟨limit - 2, by omega⟩
    show escape_go _ ⟨0, 0⟩ 0 (k + 2) = some 1
    rw [show k + 2 = (k + 1) + 1 from rfl, escape_go_succ, if_neg hz0]
    rw [hz, escape_go_succ, if_pos h]

/-- Witness for C3 (amended) at `c = 3 + 0i`. -/
theorem c3_witness :
    4 ≤ Cx.norm_sqr ⟨3, 0⟩ ∧ escape_time_mandel ⟨3, 0⟩ 1 = none ∧
    escape_time_mandel ⟨3, 0⟩ 2 = some 1 :=
  ⟨by norm_num [Cx.norm_sqr],
    (c3_amended ⟨3, 0⟩ (by norm_num [Cx.norm_sqr])).1,
    (c3_amended ⟨3, 0⟩ (by norm_num [Cx.norm_sqr])).2 2 (le_refl 2)⟩

/-- C9.  Every `some i` returned by any of the three escape-time kernels
satisfies `i < limit`; in particular with the fixed limit 255 every
returned count is at most 254 and below 2048, hence a valid index into the
2048-entry palette. -/
theorem c9_escape_counts_below_limit (c z : Cx) (limit i : ℕ) :
    (escape_time_mandel c limit = some i → i < limit) ∧
    (escape_time_julia z c limit = some i → i < limit) ∧
    (escape_time_burningship c limit = some i → i < limit) ∧
    (escape_time_mandel c 255 = some i → i ≤ 254 ∧ i < 2048) ∧
    (escape_time_julia z c 255 = some i → i ≤ 254 ∧ i < 2048) ∧
    (escape_time_burningship c 255 = some i → i ≤ 254 ∧ i < 2048) := by
  refine ⟨fun h => ?_, fun h => ?_, fun h => ?_,
    fun h => ?_, fun h => ?_, fun h => ?_⟩
  · simpa using escape_go_lt _ limit _ 0 i h
  · simpa using escape_go_lt _ limit _ 0 i h
  · simpa using escape_go_lt _ limit _ 0 i h
  · have hx := escape_go_lt _ 255 _ 0 i h
    omega
  · have hx := escape_go_lt _ 255 _ 0 i h
    omega
  · have hx := escape_go_lt _ 255 _ 0 i h
    omega

/-- Witness for C9 at `c = 3 + 0i`, `limit = 2` and `limit = 255`
(escape detected at iteration 1 in both cases). -/
theorem c9_witness :
    escape_time_mandel ⟨3, 0⟩ 2 = some 1 ∧ (1 : ℕ) < 2 ∧
    escape_time_mandel ⟨3, 0⟩ 255 = some 1 ∧ ((1 : ℕ) ≤ 254 ∧ (1 : ℕ) < 2048) := by
  have h2 : escape_time_mandel ⟨3, 0⟩ 2 = some 1 := by
    show escape_go _ ⟨0, 0⟩ 0 2 = some 1
    rw [show (2 : ℕ) = 1 + 1 from rfl, escape_go_succ,
      if_neg (by norm_num [Cx.norm_sqr])]
    rw [escape_go_succ, if_pos (by norm_num [Cx.norm_sqr, Cx.add, Cx.mul])]
  have h255 : escape_time_mandel ⟨3, 0⟩ 255 = some 1 := by
    show escape_go _ ⟨0, 0⟩ 0 255 = some 1
    rw [show (255 : ℕ) = 254 + 1 from rfl, escape_go_succ,
      if_neg (by norm_num [Cx.norm_sqr])]
    rw [show (254 : ℕ) = 253 + 1 from rfl, escape_go_succ,
      if_pos (by norm_num [Cx.norm_sqr, Cx.add, Cx.mul])]
  exact ⟨h2, (c9_escape_counts_below_limit ⟨3, 0⟩ ⟨0, 0⟩ 2 1).1 h2, h255,
    (c9_escape_counts_below_limit ⟨3, 0⟩ ⟨0, 0⟩ 255 1).2.2.2.1 h255⟩

/-- C6.  `pixel_to_point` is a pure function of its four arguments whose
result has exactly the real part
`upper_left.re + col·(lower_right.re - upper_left.re)/width` and imaginary
part `upper_left.im - row·(upper_left.im - lower_right.im)/height`; the
pixel coordinates enter the formula unclamped. -/
theorem c6_pixel_to_point_formula (bounds pixel : ℕ × ℕ) (ul lr : Cx)
    (hw : 1 ≤ bounds.1) (hh : 1 ≤ bounds.2) :
    (pixel_to_point bounds pixel ul lr).re
        = ul.re + (pixel.1 : ℝ) * (lr.re - ul.re) / (bounds.1 : ℝ) ∧
    (pixel_to_point bounds pixel ul lr).im
        = ul.im - (pixel.2 : ℝ) * (ul.im - lr.im) / (bounds.2 : ℝ) :=
  ⟨rfl, rfl⟩

/-- Witness for C6 at bounds `(2, 2)`, pixel `(1, 1)`,
rectangle `(-2 + 2i, 2 - 2i)`. -/
theorem c6_witness :
    ((1 : ℕ) ≤ 2 ∧ (1 : ℕ) ≤ 2) ∧
    (pixel_to_point (2, 2) (1, 1) ⟨-2, 2⟩ ⟨2, -2⟩).re
        = (-2 : ℝ) + ((1 : ℕ) : ℝ) * ((2 : ℝ) - (-2)) / ((2 : ℕ) : ℝ) :=
  ⟨⟨by norm_num, by norm_num⟩,
    (c6_pixel_to_point_formula (2, 2) (1, 1) ⟨-2, 2⟩ ⟨2, -2⟩
      (by norm_num) (by norm_num)).1⟩

/-- C8.  Boundary exactness of the coordinate mapping (in the exact-real
idealization of `f64`): pixel `(0, 0)` maps to `upper_left` and pixel
`(width, height)` maps to `lower_right`, for any bounds with
`width, height ≥ 1`. -/
theorem c8_roundtrip (bounds : ℕ × ℕ) (ul lr : Cx)
    (hw : 1 ≤ bounds.1) (hh : 1 ≤ bounds.2) :
    pixel_to_point bounds (0, 0) ul lr = ul ∧
    pixel_to_point bounds (bounds.1, bounds.2) ul lr = lr := by
  have h1 : (bounds.1 : ℝ) ≠ 0 := Nat.cast_ne_zero.mpr (by omega)
  have h2 : (bounds.2 : ℝ) ≠ 0 := Nat.cast_ne_zero.mpr (by omega)
  constructor
  · ext <;> simp [pixel_to_point]
  · ext <;> simp only [pixel_to_point] <;> field_simp

/-- Witness for C8 at bounds `(2, 3)` and rectangle `(-2 + 2i, 1 - 1i)`. -/
theorem c8_witness :
    ((1 : ℕ) ≤ 2 ∧ (1 : ℕ) ≤ 3) ∧
    pixel_to_point (2, 3) (0, 0) ⟨-2, 2⟩ ⟨1, -1⟩ = ⟨-2, 2⟩ ∧
    pixel_to_point (2, 3) (2, 3) ⟨-2, 2⟩ ⟨1, -1⟩ = ⟨1, -1⟩ :=
  ⟨⟨by norm_num, by norm_num⟩,
    c8_roundtrip (2, 3) ⟨-2, 2⟩ ⟨1, -1⟩ (by norm_num) (by norm_num)⟩

/-- C5, counterexample.  Bounds `100×200` (pixel ratio `1/2 < 1`) with
rectangle `(0 + 2i, 3 + 0i)` (plane ratio `3/2`): `args.rs`'s `common_args`
adjusts the *real* extents (to `1/4` and `11/4`), leaves the imaginary
extents untouched, and the corrected rectangle's ratio `(5/2)/2 = 5/4`
differs from the pixel ratio `1/2`; `main.rs`'s `common_args` instead hits
`unimplemented!()` (modelled `none`) on the same input. -/
theorem c5_counterexample :
    ((100 : ℕ) : ℝ) / ((200 : ℕ) : ℝ) < 1 ∧
    ((100 : ℕ) : ℝ) / ((200 : ℕ) : ℝ) ≠ ((3 : ℝ) - 0) / ((2 : ℝ) - 0) ∧
    common_args_aspect (100, 200) ⟨0, 2⟩ ⟨3, 0⟩ = (⟨1 / 4, 2⟩, ⟨11 / 4, 0⟩) ∧
    ((11 / 4 : ℝ) - 1 / 4) / ((2 : ℝ) - 0) ≠ ((100 : ℕ) : ℝ) / ((200 : ℕ) : ℝ) ∧
    common_args_main_aspect (100, 200) ⟨0, 2⟩ ⟨3, 0⟩ = none := by
  refine ⟨by norm_num, by norm_num, ?_, by norm_num, ?_⟩
  · simp only [common_args_aspect]
    rw [if_neg (by norm_num), if_neg (by norm_num)]
    norm_num [Prod.ext_iff, Cx.mk.injEq]
  · simp only [common_args_main_aspect]
    rw [if_pos (by norm_num)]

/-- C5, amended.  When the pixel ratio `width/height` differs from the
plane rectangle's ratio, `main.rs`'s `common_args` panics
(`unimplemented!()`), while `args.rs`'s `common_args` corrects as follows:
for pixel ratio above 1 it moves both *imaginary* extents inward by
`1/(2·ratio)` (leaving the real axis alone), otherwise it moves both *real*
extents inward by `ratio/2` (leaving the imaginary axis alone); in both
cases the center of the adjusted axis is preserved, but the corrected
ratio is not in general equal to the pixel ratio. -/
theorem c5_amended (bounds : ℕ × ℕ) (ul lr : Cx)
    (hne : (bounds.1 : ℝ) / (bounds.2 : ℝ)
        ≠ (lr.re - ul.re) / (ul.im - lr.im)) :
    common_args_main_aspect bounds ul lr = none ∧
    (1 < (bounds.1 : ℝ) / (bounds.2 : ℝ) →
      common_args_aspect bounds ul lr =
        (⟨ul.re, ul.im - 1 / ((bounds.1 : ℝ) / (bounds.2 : ℝ)) / 2⟩,
         ⟨lr.re, lr.im + 1 / ((bounds.1 : ℝ) / (bounds.2 : ℝ)) / 2⟩) ∧
      (common_args_aspect bounds ul lr).1.im + (common_args_aspect bounds ul lr).2.im
        = ul.im + lr.im) ∧
    (¬ 1 < (bounds.1 : ℝ) / (bounds.2 : ℝ) →
      common_args_aspect bounds ul lr =
        (⟨ul.re + (bounds.1 : ℝ) / (bounds.2 : ℝ) / 2, ul.im⟩,
         ⟨lr.re - (bounds.1 : ℝ) / (bounds.2 : ℝ) / 2, lr.im⟩) ∧
      (common_args_aspect bounds ul lr).1.re + (common_args_aspect bounds ul lr).2.re
        = ul.re + lr.re) := by
  refine ⟨?_, fun hgt => ?_, fun hle => ?_⟩
  · simp only [common_args_main_aspect]
    rw [if_pos hne]
  · have heq : common_args_aspect bounds ul lr =
        (⟨ul.re, ul.im - 1 / ((bounds.1 : ℝ) / (bounds.2 : ℝ)) / 2⟩,
         ⟨lr.re, lr.im + 1 / ((bounds.1 : ℝ) / (bounds.2 : ℝ)) / 2⟩) := by
      simp only [common_args_aspect]
      rw [if_neg hne, if_pos hgt]
    exact ⟨heq, by rw [heq]; ring⟩
  · have heq : common_args_aspect bounds ul lr =
        (⟨ul.re + (bounds.1 : ℝ) / (bounds.2 : ℝ) / 2, ul.im⟩,
         ⟨lr.re - (bounds.1 : ℝ) / (bounds.2 : ℝ) / 2, lr.im⟩) := by
      simp only [common_args_aspect]
      rw [if_neg hne, if_neg hle]
    exact ⟨heq, by rw [heq]; ring⟩

/-- Witness for C5 (amended) at bounds `100×200`,
rectangle `(0 + 2i, 3 + 0i)`. -/
theorem c5_witness :
    ((100 : ℕ) : ℝ) / ((200 : ℕ) : ℝ)
      ≠ ((3 : ℝ) - 0) / ((2 : ℝ) - 0) ∧
    common_args_main_aspect (100, 200) ⟨0, 2⟩ ⟨3, 0⟩ = none :=
  ⟨by norm_num, (c5_amended (100, 200) ⟨0, 2⟩ ⟨3, 0⟩ (by norm_num)).1⟩

/-- C7.  Rendering the whole image as one band agrees byte-for-byte with
the per-row band decomposition of `create_mandel`: each row `i` rendered
as a `(width, 1)` band between `pixel_to_point bounds (0, i)` and
`pixel_to_point bounds (width, i + 1)` reproduces exactly row `i` of the
full render, for any abstract palette lookup. -/
theorem c7_band_decomposition (colorFn : ℕ → Color) (bounds : ℕ × ℕ)
    (ul lr : Cx) (hw : 1 ≤ bounds.1) :
    create_mandel colorFn bounds ul lr = render_mandel colorFn bounds ul lr := by
  have hrow : ∀ i : ℕ,
      render_mandel colorFn (bounds.1, 1)
        (pixel_to_point bounds (0, i) ul lr)
        (pixel_to_point bounds (bounds.1, i + 1) ul lr)
      = (List.range bounds.1).flatMap fun col =>
          match escape_time_mandel (pixel_to_point bounds (col, i) ul lr) 255 with
          | none => [0, 0, 0]
          | some count =>
              [(colorFn count).1, (colorFn count).2.1, (colorFn count).2.2] := by
    intro i
    unfold render_mandel
    rw [show List.range 1 = [0] from rfl,
      List.flatMap_cons, List.flatMap_nil, List.append_nil]
    refine congrArg _ (funext fun col => ?_)
    rw [band_point_eq bounds ul lr i col hw]
  unfold create_mandel
  conv_rhs => unfold render_mandel
  simp only [hrow]

/-- Witness for C7 at bounds `(1, 2)`, rectangle `(-2 + 2i, 2 - 2i)` and
the identity-ish palette lookup. -/
theorem c7_witness :
    (1 : ℕ) ≤ 1 ∧
    create_mandel (fun n => (n, 0, 0)) (1, 2) ⟨-2, 2⟩ ⟨2, -2⟩
      = render_mandel (fun n => (n, 0, 0)) (1, 2) ⟨-2, 2⟩ ⟨2, -2⟩ :=
  ⟨le_refl 1, c7_band_decomposition (fun n => (n, 0, 0)) (1, 2) ⟨-2, 2⟩ ⟨2, -2⟩ (le_refl 1)⟩

end Mandelbrot
